import Mathlib

/-!
Shallow embedding of `src/services/geminiService.ts` (StoryVoice-AI), a thin
wrapper around a remote generative-AI client exposing four operations:
speech synthesis, storyboard decomposition, scene-image generation and an
image character-check.

Modelling conventions:
- JavaScript strings are Lean `String` / `List Char`; an optional string
  argument or field is `Option String`, and JavaScript truthiness of such a
  value (`undefined` and `""` are falsy) is made explicit (`jsOrElse`,
  `jsTruthyOptStr`).
- The module-level constant `ENV_API_KEY = process.env.API_KEY || ''` is a
  parameter `envApiKey : String` of every operation (absent environment
  variable = `""`).
- The remote client is a function `GenRequest → Except RemoteError GenResponse`;
  each operation returns its result together with the list of calls it issued
  (the api key the client was constructed with, plus the request), so that
  "which credential was used" and "no remote call was performed" are stateable.
- `JSON.parse` is a strict recursive-descent JSON parser (`jsonParse`); a
  JavaScript number is kept as a decimal mantissa/exponent pair (truthiness of
  a number only needs its zero test).  A thrown `SyntaxError` is `none`.
- Thrown exceptions are `Except.error`; the source's `catch` blocks are the
  corresponding `match` branches.
-/

namespace StoryVoice

/-- JavaScript `a || b` for an optional string `a`: `undefined` and `""` are
falsy, so they select the fallback `b`. -/
def jsOrElse (a : Option String) (b : String) : String :=
  match a with
  | none => b
  | some s => if s = "" then b else s

/-- JavaScript truthiness of an optional string (`undefined` and `""` falsy). -/
def jsTruthyOptStr (a : Option String) : Bool :=
  match a with
  | none => false
  | some s => if s = "" then false else true

/-- JavaScript `s.split(',')` on character lists: the comma-separated groups,
in order; always non-empty, and `""` splits to `[""]`. -/
def splitCommaChars : List Char → List (List Char)
  | [] => [[]]
  | c :: rest =>
    if c = ',' then [] :: splitCommaChars rest
    else
      match splitCommaChars rest with
      | [] => [[c]]
      | g :: gs => (c :: g) :: gs

/-- A JavaScript regex line terminator, which `.` does not match. -/
def isLineTerm (c : Char) : Bool :=
  c = '\n' || c = '\r' || c = '\u2028' || c = '\u2029'

/-- The characters a lazy `.*?` consumes between a `:` and the first `;`
after it: `some` group when a `;` occurs before the end or a line
terminator, else `none`. -/
def takeUntilSemi : List Char → Option (List Char)
  | [] => none
  | c :: rest =>
    if c = ';' then some []
    else if isLineTerm c then none
    else (takeUntilSemi rest).map (c :: ·)

/-- The capture group of the first JavaScript match of `/:(.*?);/`: the
engine tries start positions left to right, so this is the group of the
first `:` that has a `;` after it on the same line. -/
def mimeGroup : List Char → Option (List Char)
  | [] => none
  | c :: rest =>
    if c = ':' then
      match takeUntilSemi rest with
      | some g => some g
      | none => mimeGroup rest
    else mimeGroup rest

/-- Whitespace removed by JavaScript `String.prototype.trim` (the characters
that occur in practice; the full set also has the rarer Unicode spaces). -/
def isTrimWs (c : Char) : Bool :=
  c = ' ' || c = '\t' || c = '\n' || c = '\r' || c = '\x0b' || c = '\x0c' ||
  c = '\u00A0' || c = '\uFEFF'

/-- JavaScript `s.trim()` on character lists. -/
def trimChars (s : List Char) : List Char :=
  ((s.dropWhile isTrimWs).reverse.dropWhile isTrimWs).reverse

/-- Fuelled worker for JavaScript global replace of a literal pattern by `""`:
scan left to right, delete each non-overlapping occurrence of `p`, never
rescanning the output.  One unit of fuel pays for at least one consumed
character, so `s.length` fuel always suffices. -/
def replaceAllAux (p : List Char) : Nat → List Char → List Char
  | _, [] => []
  | 0, s => s
  | n + 1, c :: rest =>
    if p.isPrefixOf (c :: rest) then replaceAllAux p n ((c :: rest).drop p.length)
    else c :: replaceAllAux p n rest

/-- JavaScript `s.replace(/p/g, '')` for a literal pattern `p`. -/
def replaceAll (p s : List Char) : List Char :=
  replaceAllAux p s.length s

/-- The literal matched by the source's first cleanup regex. -/
def fenceJson : List Char := "```json".toList

/-- The literal matched by the source's second cleanup regex. -/
def fenceTicks : List Char := "```".toList

/-- The storyboard response cleanup on character lists:
`.replace(/```json/g, '').replace(/```/g, '').trim()`. -/
def cleanTextChars (s : List Char) : List Char :=
  trimChars (replaceAll fenceTicks (replaceAll fenceJson s))

/-- The storyboard response cleanup on strings. -/
def cleanText (s : String) : String :=
  (cleanTextChars s.toList).asString

/-- A JSON value as `JSON.parse` produces it.  A number is kept as the decimal
mantissa and power-of-ten exponent read from the literal (value
`mantissa * 10 ^ exp10`); object fields are kept in source order. -/
inductive JSValue where
  | null
  | bool (b : Bool)
  | num (mantissa : Int) (exp10 : Int)
  | str (s : String)
  | arr (elements : List JSValue)
  | obj (fields : List (String × JSValue))

/-- JSON insignificant whitespace. -/
def isJsonWs (c : Char) : Bool :=
  c = ' ' || c = '\t' || c = '\n' || c = '\r'

/-- The value of a hex digit, `none` for any other character. -/
def hexDigitVal (c : Char) : Option Nat :=
  if '0' ≤ c ∧ c ≤ '9' then some (c.toNat - 48)
  else if 'a' ≤ c ∧ c ≤ 'f' then some (c.toNat - 87)
  else if 'A' ≤ c ∧ c ≤ 'F' then some (c.toNat - 55)
  else none

/-- The number a list of decimal digits denotes. -/
def digitsToNat (ds : List Char) : Nat :=
  ds.foldl (fun n c => n * 10 + (c.toNat - 48)) 0

/-- JSON string body after the opening quote: the decoded characters and the
input after the closing quote.  Unescaped control characters and bad escapes
are rejected, as `JSON.parse` rejects them. -/
def parseStringBody : Nat → List Char → Option (List Char × List Char)
  | 0, _ => none
  | _ + 1, [] => none
  | n + 1, c :: rest =>
    if c = '"' then some ([], rest)
    else if c = '\\' then
      match rest with
      | [] => none
      | e :: rest2 =>
        if e = '"' ∨ e = '\\' ∨ e = '/' then
          (parseStringBody n rest2).map (fun r => (e :: r.1, r.2))
        else if e = 'b' then (parseStringBody n rest2).map (fun r => ('\x08' :: r.1, r.2))
        else if e = 'f' then (parseStringBody n rest2).map (fun r => ('\x0c' :: r.1, r.2))
        else if e = 'n' then (parseStringBody n rest2).map (fun r => ('\n' :: r.1, r.2))
        else if e = 'r' then (parseStringBody n rest2).map (fun r => ('\r' :: r.1, r.2))
        else if e = 't' then (parseStringBody n rest2).map (fun r => ('\t' :: r.1, r.2))
        else if e = 'u' then
          match rest2 with
          | h1 :: h2 :: h3 :: h4 :: rest3 =>
            match hexDigitVal h1, hexDigitVal h2, hexDigitVal h3, hexDigitVal h4 with
            | some a, some b, some c2, some d =>
              (parseStringBody n rest3).map
                (fun r => (Char.ofNat (((a * 16 + b) * 16 + c2) * 16 + d) :: r.1, r.2))
            | _, _, _, _ => none
          | _ => none
        else none
    else if c.toNat < 32 then none
    else (parseStringBody n rest).map (fun r => (c :: r.1, r.2))

/-- JSON fraction part: `some (digits, rest)` after an optional `.digits`,
`none` when a `.` is not followed by a digit. -/
def parseFrac : List Char → Option (List Char × List Char)
  | c :: r =>
    if c = '.' then
      let fds := r.takeWhile Char.isDigit
      if fds = [] then none else some (fds, r.dropWhile Char.isDigit)
    else some ([], c :: r)
  | [] => some ([], [])

/-- JSON exponent part: `some (negative?, digits, rest)` after an optional
`e`/`E` exponent, `none` when the exponent has no digits. -/
def parseExp : List Char → Option (Bool × List Char × List Char)
  | c :: r =>
    if c = 'e' ∨ c = 'E' then
      let (esign, r2) : Bool × List Char :=
        match r with
        | d :: r3 => if d = '+' then (false, r3) else if d = '-' then (true, r3) else (false, d :: r3)
        | [] => (false, [])
      let eds := r2.takeWhile Char.isDigit
      if eds = [] then none else some (esign, eds, r2.dropWhile Char.isDigit)
    else some (false, [], c :: r)
  | [] => some (false, [], [])

/-- A JSON number literal at the start of the input: strict JSON grammar
(optional minus, no leading zeros, an optional fraction and exponent). -/
def parseNumberChars (s : List Char) : Option (JSValue × List Char) :=
  let (neg, s1) : Bool × List Char :=
    match s with
    | c :: r => if c = '-' then (true, r) else (false, c :: r)
    | [] => (false, [])
  let ds := s1.takeWhile Char.isDigit
  if ds = [] then none
  else if 1 < ds.length ∧ ds.headD '0' = '0' then none
  else
    match parseFrac (s1.dropWhile Char.isDigit) with
    | none => none
    | some (fds, r2) =>
      match parseExp r2 with
      | none => none
      | some (esign, eds, r3) =>
        let m : Int := (digitsToNat (ds ++ fds) : Int)
        let e : Int :=
          (if esign then -(digitsToNat eds : Int) else (digitsToNat eds : Int)) -
            (fds.length : Int)
        some (.num (if neg then -m else m) e, r3)

mutual

/-- A JSON value at the start of the input (leading whitespace allowed):
the value and the remaining input. -/
def parseValue : Nat → List Char → Option (JSValue × List Char)
  | 0, _ => none
  | n + 1, s =>
    match List.dropWhile isJsonWs s with
    | 'n' :: 'u' :: 'l' :: 'l' :: rest => some (.null, rest)
    | 't' :: 'r' :: 'u' :: 'e' :: rest => some (.bool true, rest)
    | 'f' :: 'a' :: 'l' :: 's' :: 'e' :: rest => some (.bool false, rest)
    | '"' :: rest =>
      (parseStringBody (rest.length + 1) rest).map (fun r => (.str r.1.asString, r.2))
    | '[' :: rest =>
      (match List.dropWhile isJsonWs rest with
       | ']' :: rest2 => some (.arr [], rest2)
       | _ => (parseElems n rest).map (fun r => (.arr r.1, r.2)))
    | '{' :: rest =>
      (match List.dropWhile isJsonWs rest with
       | '}' :: rest2 => some (.obj [], rest2)
       | _ => (parseMembers n rest).map (fun r => (.obj r.1, r.2)))
    | s2 => parseNumberChars s2

/-- The elements of a non-empty JSON array after its `[`. -/
def parseElems : Nat → List Char → Option (List JSValue × List Char)
  | 0, _ => none
  | n + 1, s =>
    match parseValue n s with
    | none => none
    | some (v, rest) =>
      match List.dropWhile isJsonWs rest with
      | ',' :: rest2 => (parseElems n rest2).map (fun r => (v :: r.1, r.2))
      | ']' :: rest2 => some ([v], rest2)
      | _ => none

/-- The members of a non-empty JSON object after its `{`. -/
def parseMembers : Nat → List Char → Option (List (String × JSValue) × List Char)
  | 0, _ => none
  | n + 1, s =>
    match List.dropWhile isJsonWs s with
    | '"' :: rest =>
      (match parseStringBody (rest.length + 1) rest with
       | none => none
       | some (key, rest2) =>
         match List.dropWhile isJsonWs rest2 with
         | ':' :: rest3 =>
           (match parseValue n rest3 with
            | none => none
            | some (v, rest4) =>
              match List.dropWhile isJsonWs rest4 with
              | ',' :: rest5 =>
                (parseMembers n rest5).map (fun r => ((key.asString, v) :: r.1, r.2))
              | '}' :: rest5 => some ([(key.asString, v)], rest5)
              | _ => none)
         | _ => none)
    | _ => none

end

/-- JavaScript `JSON.parse`: `some` value on success, `none` when it throws a
`SyntaxError` (trailing garbage included).  Nesting depth is bounded by the
length of the input, so `length + 1` fuel is always enough. -/
def jsonParse (s : String) : Option JSValue :=
  match parseValue (s.length + 1) s.toList with
  | some (v, rest) => if List.dropWhile isJsonWs rest = [] then some v else none
  | none => none

/-- JavaScript truthiness of a JSON value (a parsed number is `0` exactly when
its mantissa is `0`, whatever the exponent). -/
def jsTruthy : JSValue → Bool
  | .null => false
  | .bool b => b
  | .num m _ => if m = 0 then false else true
  | .str s => if s = "" then false else true
  | .arr _ => true
  | .obj _ => true

/-- Object field lookup as JavaScript sees a parsed object: with a duplicated
key, `JSON.parse` keeps the last occurrence. -/
def lookupFieldLast (fields : List (String × JSValue)) (key : String) : Option JSValue :=
  match fields with
  | [] => none
  | (k, v) :: rest =>
    match lookupFieldLast rest key with
    | some w => some w
    | none => if k = key then some v else none

/-- JavaScript property read `v.key` on a parsed JSON value: a `TypeError`
(`.error`) on `null`, the field or `undefined` on an object, `undefined` on
any other value. -/
def jsGetField : JSValue → String → Except Unit (Option JSValue)
  | .null, _ => .error ()
  | .obj fields, key => .ok (lookupFieldLast fields key)
  | _, _ => .ok none

/-- Inline binary data of a content part; in a response `mimeType` and `data`
may each be absent. -/
structure InlineData where
  mimeType : Option String
  data : Option String
  deriving DecidableEq

/-- A part of request or response content: plain text or inline binary data. -/
structure ContentPart where
  text : Option String
  inlineData : Option InlineData
  deriving DecidableEq

/-- The content of a response candidate; its parts may be absent. -/
structure ResponseContent where
  parts : Option (List ContentPart)
  deriving DecidableEq

/-- One candidate of a remote response; its content may be absent. -/
structure ResponseCandidate where
  content : Option ResponseContent
  deriving DecidableEq

/-- A remote `generateContent` response: the candidates and the aggregated
`text` accessor, each possibly absent. -/
structure GenResponse where
  candidates : Option (List ResponseCandidate)
  text : Option String
  deriving DecidableEq

/-- A response modality requested in a config. -/
inductive Modality where
  | audio
  deriving DecidableEq

/-- A `Type` tag of a response schema. -/
inductive SchemaType where
  | array | object | string
  deriving DecidableEq

/-- One property of an object response schema. -/
structure SchemaProperty where
  name : String
  ty : SchemaType
  description : String
  deriving DecidableEq

/-- The response schema the storyboard request passes. -/
structure ResponseSchema where
  ty : SchemaType
  itemsTy : SchemaType
  itemProperties : List SchemaProperty
  required : List String
  deriving DecidableEq

/-- The `contents` argument of a request: a plain string, one content's
parts, or a list of turns. -/
inductive ReqContents where
  | plainText (s : String)
  | single (parts : List ContentPart)
  | turns (ts : List (List ContentPart))
  deriving DecidableEq

/-- The `config` argument of a request (the fields the source sets). -/
structure GenConfig where
  systemInstruction : Option String
  responseModalities : List Modality
  voiceName : Option String
  responseMimeType : Option String
  responseSchema : Option ResponseSchema
  aspectRatio : Option String
  deriving DecidableEq

/-- One `generateContent` request. -/
structure GenRequest where
  model : String
  contents : ReqContents
  config : GenConfig
  deriving DecidableEq

/-- A transport/remote failure of the remote call. -/
structure RemoteError where
  message : String
  deriving DecidableEq

/-- An error an operation can throw: the missing-key `Error` thrown by
`getClient`, a remote error rethrown by a `catch`, or a rethrown JSON
`SyntaxError`. -/
inductive GenError where
  | missingKey
  | remoteError (e : RemoteError)
  | parseError
  deriving DecidableEq

/-- The remote client object, holding the key it was constructed with. -/
structure GoogleGenAI where
  apiKey : String
  deriving DecidableEq

/-- A record of one remote call: the key the client was constructed with and
the request sent. -/
structure CallRecord where
  apiKey : String
  request : GenRequest
  deriving DecidableEq

/-- The behaviour of the remote service: what one `generateContent` call with
a given request returns or throws. -/
def RemoteModel : Type := GenRequest → Except RemoteError GenResponse

/-- Modelled from the spec: `VoiceName` (imported from `../types`, not part of
the repository's files) is "an enumerated identifier selecting a synthesis
voice", opaque to this component; values are injected by the caller. -/
def VoiceName : Type := String

/-- `getClient`: resolve the credential (`apiKey || ENV_API_KEY`) and throw
when the result is empty, else construct the client from it. -/
def getClient (envApiKey : String) (apiKey : Option String) : Except GenError GoogleGenAI :=
  let key := jsOrElse apiKey envApiKey
  if key = "" then .error .missingKey else .ok { apiKey := key }

/-- The request `generateSpeech` builds. -/
def speechRequest (text : String) (voice : VoiceName) (stylePrompt : String) : GenRequest :=
  { model := "gemini-2.5-flash-preview-tts",
    contents := .turns [[{ text := some text, inlineData := none }]],
    config :=
      { systemInstruction := some stylePrompt,
        responseModalities := [.audio],
        voiceName := some voice,
        responseMimeType := none,
        responseSchema := none,
        aspectRatio := none } }

/-- The `audioPart.inlineData.data` extraction of `generateSpeech`:
`candidates?.[0]?.content?.parts?.[0]`, then the data when the part, its
`inlineData` and the `data` are all truthy, else `null`. -/
def speechExtract (response : GenResponse) : Option String :=
  match (((response.candidates.bind List.head?).bind ResponseCandidate.content).bind
      ResponseContent.parts).bind List.head? with
  | some audioPart =>
    (match audioPart.inlineData with
     | some d =>
       (match d.data with
        | some s => if s = "" then none else some s
        | none => none)
     | none => none)
  | none => none

/-- `generateSpeech`: build the TTS request, await the remote call, extract
the first candidate's first part's audio payload; remote errors rethrow. -/
def generateSpeech (envApiKey : String) (text : String) (voice : VoiceName)
    (stylePrompt : String) (apiKey : Option String) (remote : RemoteModel) :
    Except GenError (Option String) × List CallRecord :=
  match getClient envApiKey apiKey with
  | .error e => (.error e, [])
  | .ok ai =>
    match remote (speechRequest text voice stylePrompt) with
    | .error e =>
      (.error (.remoteError e),
       [{ apiKey := ai.apiKey, request := speechRequest text voice stylePrompt }])
    | .ok response =>
      (.ok (speechExtract response),
       [{ apiKey := ai.apiKey, request := speechRequest text voice stylePrompt }])

/-- The system instruction of the storyboard request, verbatim. -/
def storyboardSystemInstruction : String :=
  "You are an expert storyboard artist and video director. Your task is to split the provided story into a highly granular sequence of scenes for a dynamic video.\n\nCRITICAL RULE: Create a separate scene for EVERY SINGLE SENTENCE.\n- Do NOT group multiple sentences into one scene.\n- If a sentence is very long or complex, you may even split it into two scenes.\n- The goal is to ensure the visual image changes frequently (every few seconds) to keep the viewer engaged.\n- Never allow a single image to remain on screen for a long paragraph.\n\nFor each scene:\n1. Extract the exact text segment (usually just one sentence).\n2. Write a highly detailed, cinematic image generation prompt that visualizes that specific moment, suitable for vertical video (9:16 format), including camera angles, lighting, and mood.\n3. Ensure visual consistency across prompts (e.g. if the main character is wearing a red cloak in scene 1, ensure they are described similarly in scene 2)."

/-- The response schema of the storyboard request, verbatim. -/
def storyboardSchema : ResponseSchema :=
  { ty := .array,
    itemsTy := .object,
    itemProperties :=
      [{ name := "narrativeText", ty := .string,
         description := "The specific sentence or phrase from the original text for this scene." },
       { name := "imagePrompt", ty := .string,
         description := "A detailed visual description of the scene suitable for an image generation model." }],
    required := ["narrativeText", "imagePrompt"] }

/-- The request `generateStoryboard` builds. -/
def storyboardRequest (fullText : String) : GenRequest :=
  { model := "gemini-2.5-flash",
    contents := .plainText fullText,
    config :=
      { systemInstruction := some storyboardSystemInstruction,
        responseModalities := [],
        voiceName := none,
        responseMimeType := some "application/json",
        responseSchema := some storyboardSchema,
        aspectRatio := none } }

/-- The response handling of `generateStoryboard`: default an absent/empty
`response.text` to `"[]"`, strip code fences, `JSON.parse` the result (the
`as StoryboardSegment[]` cast is not checked at runtime, so the parsed JSON
value is returned as is); a `SyntaxError` rethrows through the `catch`. -/
def storyboardDecode (response : GenResponse) : Except GenError JSValue :=
  match jsonParse (cleanText (jsOrElse response.text "[]")) with
  | some v => .ok v
  | none => .error .parseError

/-- `generateStoryboard`: build the storyboard request, await the remote
call, clean and parse the text response; remote errors rethrow. -/
def generateStoryboard (envApiKey : String) (fullText : String) (apiKey : Option String)
    (remote : RemoteModel) : Except GenError JSValue × List CallRecord :=
  match getClient envApiKey apiKey with
  | .error e => (.error e, [])
  | .ok ai =>
    match remote (storyboardRequest fullText) with
    | .error e =>
      (.error (.remoteError e),
       [{ apiKey := ai.apiKey, request := storyboardRequest fullText }])
    | .ok response =>
      (storyboardDecode response,
       [{ apiKey := ai.apiKey, request := storyboardRequest fullText }])

/-- The style-transfer instruction sent with a reference image. -/
def sceneStyleInstruction (prompt : String) : String :=
  "Adopt the artistic style, color palette, and mood of the reference image provided above. Generate a new scene based on this description: " ++ prompt

/-- The data-URI decomposition shared by `generateSceneImage` and
`checkImageForCharacter`: `const [header, base64Data] = s.split(',')` and
`header.match(/:(.*?);/)?.[1] || 'image/png'`; the mime type and the
(possibly absent) payload. -/
def parseDataUri (s : String) : String × Option String :=
  let pieces := splitCommaChars s.toList
  let headerChars := pieces.headD []
  let base64Data := (pieces.get? 1).map List.asString
  (jsOrElse ((mimeGroup headerChars).map List.asString) "image/png", base64Data)

/-- The content parts `generateSceneImage` builds: with a truthy reference
image, its inline data followed by the style-transfer instruction; otherwise
just the prompt as text. -/
def sceneImageParts (prompt : String) (referenceImageBase64 : Option String) :
    List ContentPart :=
  if jsTruthyOptStr referenceImageBase64 = true then
    [{ text := none,
       inlineData := some
         { mimeType := some (parseDataUri (jsOrElse referenceImageBase64 "")).1,
           data := (parseDataUri (jsOrElse referenceImageBase64 "")).2 } },
     { text := some (sceneStyleInstruction prompt), inlineData := none }]
  else [{ text := some prompt, inlineData := none }]

/-- The request `generateSceneImage` builds (9:16 aspect ratio requested). -/
def sceneImageRequest (prompt : String) (referenceImageBase64 : Option String) : GenRequest :=
  { model := "gemini-2.5-flash-image",
    contents := .single (sceneImageParts prompt referenceImageBase64),
    config :=
      { systemInstruction := none,
        responseModalities := [],
        voiceName := none,
        responseMimeType := none,
        responseSchema := none,
        aspectRatio := some "9:16" } }

/-- The data-URI construction of `generateSceneImage`'s response loop:
`data:<mimeType or image/png>;base64,<data>`. -/
def mkImageDataUri (mimeType : Option String) (data : String) : String :=
  "data:" ++ jsOrElse mimeType "image/png" ++ ";base64," ++ data

/-- `response.candidates?.[0]?.content?.parts || []`. -/
def responseParts (response : GenResponse) : List ContentPart :=
  (((response.candidates.bind List.head?).bind ResponseCandidate.content).bind
    ResponseContent.parts).getD []

/-- The response loop of `generateSceneImage`: the first part whose inline
data is truthy, re-wrapped as a data-URI; `null` when there is none. -/
def firstImagePart : List ContentPart → Option String
  | [] => none
  | part :: rest =>
    match part.inlineData with
    | some d =>
      (match d.data with
       | some s => if s = "" then firstImagePart rest else some (mkImageDataUri d.mimeType s)
       | none => firstImagePart rest)
    | none => firstImagePart rest

/-- `generateSceneImage`: build the parts (with optional style reference),
await the remote call, return the first inline image re-wrapped as a
data-URI or `null`; remote errors rethrow. -/
def generateSceneImage (envApiKey : String) (prompt : String)
    (referenceImageBase64 : Option String) (apiKey : Option String) (remote : RemoteModel) :
    Except GenError (Option String) × List CallRecord :=
  match getClient envApiKey apiKey with
  | .error e => (.error e, [])
  | .ok ai =>
    match remote (sceneImageRequest prompt referenceImageBase64) with
    | .error e =>
      (.error (.remoteError e),
       [{ apiKey := ai.apiKey, request := sceneImageRequest prompt referenceImageBase64 }])
    | .ok response =>
      (.ok (firstImagePart (responseParts response)),
       [{ apiKey := ai.apiKey, request := sceneImageRequest prompt referenceImageBase64 }])

/-- The instruction text of the character-check request, verbatim. -/
def checkPrompt : String :=
  "Analyze this image. Does it contain a visible person, character, skeleton, or humanoid figure that serves as the main subject? Answer with JSON: \x7b\"hasCharacter\": boolean\x7d"

/-- The request `checkImageForCharacter` builds. -/
def checkRequest (base64Image : String) : GenRequest :=
  { model := "gemini-2.5-flash",
    contents := .single
      [{ text := none,
         inlineData := some
           { mimeType := some (parseDataUri base64Image).1,
             data := (parseDataUri base64Image).2 } },
       { text := some checkPrompt, inlineData := none }],
    config :=
      { systemInstruction := none,
        responseModalities := [],
        voiceName := none,
        responseMimeType := some "application/json",
        responseSchema := none,
        aspectRatio := none } }

/-- The response handling of `checkImageForCharacter`, all inside its `try`:
an absent/empty text is `true`; a `JSON.parse` failure is caught to `true`; a
`TypeError` reading `.hasCharacter` of `null` is caught to `true`; otherwise
the truthiness coercion `!!json.hasCharacter`. -/
def checkDecode (response : GenResponse) : Bool :=
  match response.text with
  | none => true
  | some t =>
    if t = "" then true
    else
      match jsonParse t with
      | none => true
      | some json =>
        match jsGetField json "hasCharacter" with
        | .error _ => true
        | .ok (some v) => jsTruthy v
        | .ok none => false

/-- `checkImageForCharacter`: fail open to `true` when neither a passed key
nor the environment key is truthy; otherwise call the remote model and decode
fail-open; every caught error becomes `true`. -/
def checkImageForCharacter (envApiKey : String) (base64Image : String)
    (apiKey : Option String) (remote : RemoteModel) :
    Except GenError Bool × List CallRecord :=
  if jsTruthyOptStr apiKey = false ∧ envApiKey = "" then (.ok true, [])
  else
    match getClient envApiKey apiKey with
    | .error e => (.error e, [])
    | .ok ai =>
      match remote (checkRequest base64Image) with
      | .error _ => (.ok true, [{ apiKey := ai.apiKey, request := checkRequest base64Image }])
      | .ok response =>
        (.ok (checkDecode response),
         [{ apiKey := ai.apiKey, request := checkRequest base64Image }])

/-! Definitions written from the spec's words, to be compared with the
embedding above, plus the predicates the claims quantify with. -/

/-- The spec's description of a content part "carrying inline binary data":
inline data present with a truthy payload. -/
def partHasImageData (part : ContentPart) : Bool :=
  match part.inlineData with
  | some d =>
    (match d.data with
     | some s => if s = "" then false else true
     | none => false)
  | none => false

/-- The spec's description of re-wrapping a response part as a data-URI:
`data:<mimeType or image/png default>;base64,<payload>`. -/
def rewrapPart (part : ContentPart) : String :=
  mkImageDataUri (part.inlineData.bind InlineData.mimeType)
    ((part.inlineData.bind InlineData.data).getD "")

/-- The spec's description of speech response extraction: "take the first
candidate, its first content part; if it carries inline binary data, return
that payload; otherwise return absent". -/
def specSpeechExtract (response : GenResponse) : Option String :=
  match response.candidates.bind List.head? with
  | none => none
  | some candidate =>
    match (candidate.content.bind ResponseContent.parts).bind List.head? with
    | none => none
    | some part =>
      match part.inlineData with
      | none => none
      | some d =>
        (match d.data with
         | none => none
         | some s => if s = "" then none else some s)

/-- A character that can stand in a MIME type written into a data-URI header:
not the `;` that ends the header's type field, not the `,` that separates
header from payload, and not a line terminator (the source's regex `.` does
not cross lines). -/
abbrev mimeCharOk (c : Char) : Prop :=
  c ≠ ';' ∧ c ≠ ',' ∧ isLineTerm c = false

/-- A character of the base64 alphabet (RFC 4648, with padding). -/
abbrev isBase64Char (c : Char) : Prop :=
  ('A' ≤ c ∧ c ≤ 'Z') ∨ ('a' ≤ c ∧ c ≤ 'z') ∨ ('0' ≤ c ∧ c ≤ '9') ∨
  c = '+' ∨ c = '/' ∨ c = '='

/-- A sample remote response used by concrete witnesses: its first
candidate's parts carry a caption and then an inline jpeg. -/
def sampleSceneResponse : GenResponse :=
  { candidates := some
      [{ content := some
          { parts := some
              [{ text := some "caption", inlineData := none },
               { text := none,
                 inlineData := some { mimeType := some "image/jpeg", data := some "QUJD" } }] } }],
    text := none }

/-- A sample remote response used by concrete witnesses: a single candidate
whose first part carries inline audio data. -/
def sampleAudioResponse : GenResponse :=
  { candidates := some
      [{ content := some
          { parts := some
              [{ text := none,
                 inlineData := some { mimeType := none, data := some "UklGRg" } }] } }],
    text := none }

/-! ## Lemmas about the JavaScript string primitives -/

theorem fenceJson_eq : fenceJson = ['`', '`', '`', 'j', 's', 'o', 'n'] := rfl

theorem fenceTicks_eq : fenceTicks = ['`', '`', '`'] := rfl

/-- The fuelled replace worker does not depend on the fuel, as long as the
fuel covers the length of the input. -/
theorem replaceAllAux_congr (p : List Char) (hp : p ≠ []) :
    ∀ n m s, s.length ≤ n → s.length ≤ m →
      replaceAllAux p n s = replaceAllAux p m s := by
  intro n
  induction n with
  | zero =>
    intro m s hs _
    have : s = [] := List.eq_nil_of_length_eq_zero (Nat.le_zero.mp hs)
    subst this
    cases m <;> rfl
  | succ n ih =>
    intro m s hs hm
    cases s with
    | nil => cases m <;> rfl
    | cons c rest =>
      cases m with
      | zero => simp at hm
      | succ m2 =>
        have hplen : 1 ≤ p.length := List.length_pos.mpr hp
        simp only [replaceAllAux]
        by_cases h : p.isPrefixOf (c :: rest) = true
        · simp only [h, if_true]
          apply ih
          · simp only [List.length_drop, List.length_cons]
            simp only [List.length_cons] at hs
            omega
          · simp only [List.length_drop, List.length_cons]
            simp only [List.length_cons] at hm
            omega
        · simp only [h, if_false]
          have hr : rest.length ≤ n := by
            simp only [List.length_cons] at hs; omega
          have hr2 : rest.length ≤ m2 := by
            simp only [List.length_cons] at hm; omega
          exact congrArg (c :: ·) (ih m2 rest hr hr2)

/-- Unfolding `replaceAll` on a match at the head: delete the occurrence and
continue after it. -/
theorem replaceAll_cons_pos (p : List Char) (hp : p ≠ []) (c : Char) (s : List Char)
    (h : p.isPrefixOf (c :: s) = true) :
    replaceAll p (c :: s) = replaceAll p ((c :: s).drop p.length) := by
  have hplen : 1 ≤ p.length := List.length_pos.mpr hp
  show replaceAllAux p (c :: s).length (c :: s) = _
  simp only [List.length_cons, replaceAllAux, h, if_true]
  apply replaceAllAux_congr p hp
  · simp only [List.length_drop, List.length_cons]; omega
  · exact Nat.le_refl _

/-- Unfolding `replaceAll` on a mismatch at the head: keep the character and
continue. -/
theorem replaceAll_cons_neg (p : List Char) (c : Char) (s : List Char)
    (h : ¬ p.isPrefixOf (c :: s) = true) :
    replaceAll p (c :: s) = c :: replaceAll p s := by
  show replaceAllAux p (c :: s).length (c :: s) = _
  simp only [List.length_cons, replaceAllAux, h, if_false]
  rfl

/-- The scan deletes a pattern standing at the very start and goes on. -/
theorem replaceAll_prepend (p : List Char) (hp : p ≠ []) (s : List Char) :
    replaceAll p (p ++ s) = replaceAll p s := by
  cases p with
  | nil => exact absurd rfl hp
  | cons q p2 =>
    have h : (q :: p2).isPrefixOf (q :: p2 ++ s) = true :=
      List.isPrefixOf_iff_prefix.mpr (List.prefix_append _ _)
    rw [show (q :: p2) ++ s = q :: (p2 ++ s) from rfl] at h ⊢
    rw [replaceAll_cons_pos (q :: p2) hp q (p2 ++ s) h]
    congr 1
    exact List.drop_left (q :: p2) s

/-- A character different from the head of the pattern passes through. -/
theorem replaceAll_cons_ne (q : Char) (p2 : List Char) (c : Char) (s : List Char)
    (h : c ≠ q) : replaceAll (q :: p2) (c :: s) = c :: replaceAll (q :: p2) s := by
  apply replaceAll_cons_neg
  simp [List.isPrefixOf, h.symm]

/-- A string with no character of the pattern is left unchanged. -/
theorem replaceAll_of_disjoint (q : Char) (p2 : List Char) (s : List Char)
    (hs : ∀ a ∈ s, a ∉ q :: p2) : replaceAll (q :: p2) s = s := by
  induction s with
  | nil => rfl
  | cons a s2 ih =>
    have ha : a ≠ q := by
      intro hqa
      exact hs a (List.mem_cons_self a s2) (hqa ▸ List.mem_cons_self q p2)
    rw [replaceAll_cons_ne q p2 a s2 ha,
      ih (fun b hb => hs b (List.mem_cons_of_mem a hb))]

/-- Characters that do not start the pattern pass through on the left. -/
theorem replaceAll_append_left (q : Char) (p2 : List Char) (w s : List Char)
    (hw : ∀ a ∈ w, a ≠ q) :
    replaceAll (q :: p2) (w ++ s) = w ++ replaceAll (q :: p2) s := by
  induction w with
  | nil => rfl
  | cons a w2 ih =>
    rw [List.cons_append, replaceAll_cons_ne q p2 a (w2 ++ s)
      (hw a (List.mem_cons_self a w2)),
      ih (fun b hb => hw b (List.mem_cons_of_mem a hb))]
    rfl

/-- A suffix with no character of the pattern passes through on the right. -/
theorem replaceAll_append_right (p : List Char) (hp : p ≠ []) (w : List Char)
    (hw : ∀ a ∈ w, a ∉ p) :
    ∀ n m, m.length ≤ n → replaceAll p (m ++ w) = replaceAll p m ++ w := by
  intro n
  induction n with
  | zero =>
    intro m hm
    have : m = [] := List.eq_nil_of_length_eq_zero (Nat.le_zero.mp hm)
    subst this
    cases p with
    | nil => exact absurd rfl hp
    | cons q p2 =>
      rw [List.nil_append, replaceAll_of_disjoint q p2 w hw]
      rfl
  | succ n ih =>
    intro m hm
    cases m with
    | nil =>
      cases p with
      | nil => exact absurd rfl hp
      | cons q p2 =>
        rw [List.nil_append, replaceAll_of_disjoint q p2 w hw]
        rfl
    | cons c m2 =>
      have hplen : 1 ≤ p.length := List.length_pos.mpr hp
      show replaceAll p (c :: (m2 ++ w)) = replaceAll p (c :: m2) ++ w
      by_cases h : p.isPrefixOf (c :: (m2 ++ w)) = true
      · have hpre : p <+: (c :: m2) ++ w := List.isPrefixOf_iff_prefix.mp h
        by_cases hlen : p.length ≤ (c :: m2).length
        · have hpm : p <+: c :: m2 := by
            have h1 : p = ((c :: m2) ++ w).take p.length := List.prefix_iff_eq_take.mp hpre
            rw [List.take_append_eq_append_take, Nat.sub_eq_zero_of_le hlen,
              List.take_zero, List.append_nil] at h1
            rw [h1]
            exact List.take_prefix _ _
          have hm2 : p.isPrefixOf (c :: m2) = true := List.isPrefixOf_iff_prefix.mpr hpm
          rw [replaceAll_cons_pos p hp c (m2 ++ w) h,
            replaceAll_cons_pos p hp c m2 hm2]
          have hdrop : (c :: (m2 ++ w)).drop p.length = (c :: m2).drop p.length ++ w := by
            have e0 : (c :: (m2 ++ w)) = (c :: m2) ++ w := rfl
            rw [e0, List.drop_append_eq_append_drop, Nat.sub_eq_zero_of_le hlen,
              List.drop_zero]
          rw [hdrop]
          apply ih
          simp only [List.length_drop, List.length_cons]
          simp only [List.length_cons] at hm
          omega
        · exfalso
          obtain ⟨u, hu⟩ := hpre
          have hLle : (c :: m2).length ≤ p.length := by omega
          have h3 : p.drop (c :: m2).length ++ u = w := by
            have e1 : (p ++ u).drop (c :: m2).length = p.drop (c :: m2).length ++ u := by
              rw [List.drop_append_eq_append_drop, Nat.sub_eq_zero_of_le hLle,
                List.drop_zero]
            have e2 : ((c :: m2) ++ w).drop (c :: m2).length = w := List.drop_left _ _
            rw [← e1, hu]
            exact e2
          have hne : p.drop (c :: m2).length ≠ [] := by
            intro hnil
            have := List.drop_eq_nil_iff.mp hnil
            omega
          obtain ⟨d, pd, hd⟩ := List.exists_cons_of_ne_nil hne
          have hdw : d ∈ w := by
            rw [← h3, hd]
            exact List.mem_cons_self d (pd ++ u)
          have hdp : d ∈ p := by
            have hmem : d ∈ p.drop (c :: m2).length := hd ▸ List.mem_cons_self d pd
            exact List.mem_of_mem_drop hmem
          exact hw d hdw hdp
      · have h2 : ¬ p.isPrefixOf (c :: m2) = true := by
          intro hx
          exact h (List.isPrefixOf_iff_prefix.mpr
            ((List.isPrefixOf_iff_prefix.mp hx).trans (List.prefix_append _ _)))
        rw [replaceAll_cons_neg p c (m2 ++ w) h,
          replaceAll_cons_neg p c m2 h2, List.cons_append]
        congr 1
        apply ih
        simp only [List.length_cons] at hm
        omega

/-- A prefix of `a ++ b` that fits inside `a` is a prefix of `a`. -/
theorem prefix_of_append_of_le {p a b : List Char} (h : p <+: a ++ b)
    (l : p.length ≤ a.length) : p <+: a := by
  have h1 : p = (a ++ b).take p.length := List.prefix_iff_eq_take.mp h
  rw [List.take_append_eq_append_take, Nat.sub_eq_zero_of_le l,
    List.take_zero, List.append_nil] at h1
  rw [h1]
  exact List.take_prefix _ _

/-- When `p ++ u = a ++ b` and `a` fits inside `p`, `a` is an initial
segment of `p`. -/
theorem eq_take_of_append_eq_append {p u a b : List Char} (h : p ++ u = a ++ b)
    (l : a.length ≤ p.length) : a = p.take a.length := by
  calc a = (a ++ b).take a.length := (List.take_left a b).symm
    _ = (p ++ u).take a.length := by rw [h]
    _ = p.take a.length := by
        rw [List.take_append_eq_append_take, Nat.sub_eq_zero_of_le l,
          List.take_zero, List.append_nil]

/-- No occurrence of ```` ```json ```` can span the boundary with an appended
```` ``` ````: removing ```` ```json ```` commutes with appending the closing
fence. -/
theorem replaceAll_fenceJson_fence_aux :
    ∀ n t, t.length ≤ n →
      replaceAll fenceJson (t ++ fenceTicks) = replaceAll fenceJson t ++ fenceTicks := by
  intro n
  induction n with
  | zero =>
    intro t ht
    have he : t = [] := List.eq_nil_of_length_eq_zero (Nat.le_zero.mp ht)
    subst he
    decide
  | succ n ih =>
    intro t ht
    cases t with
    | nil => decide
    | cons c t2 =>
      show replaceAll fenceJson (c :: (t2 ++ fenceTicks))
        = replaceAll fenceJson (c :: t2) ++ fenceTicks
      by_cases h : fenceJson.isPrefixOf (c :: (t2 ++ fenceTicks)) = true
      · by_cases h2 : fenceJson.isPrefixOf (c :: t2) = true
        · have hlen : fenceJson.length ≤ (c :: t2).length :=
            (List.isPrefixOf_iff_prefix.mp h2).length_le
          rw [replaceAll_cons_pos fenceJson (by decide) c (t2 ++ fenceTicks) h,
            replaceAll_cons_pos fenceJson (by decide) c t2 h2]
          have hdrop : (c :: (t2 ++ fenceTicks)).drop fenceJson.length
              = (c :: t2).drop fenceJson.length ++ fenceTicks := by
            have e0 : (c :: (t2 ++ fenceTicks)) = (c :: t2) ++ fenceTicks := rfl
            rw [e0, List.drop_append_eq_append_drop, Nat.sub_eq_zero_of_le hlen,
              List.drop_zero]
          rw [hdrop]
          apply ih
          have hfj : fenceJson.length = 7 := by decide
          simp only [List.length_drop, List.length_cons, hfj]
          simp only [List.length_cons] at ht
          omega
        · -- the head `c :: t2` is a strict initial segment of ```` ```json ````
          obtain ⟨u, hu⟩ := List.isPrefixOf_iff_prefix.mp h
          have hlen2 : ¬ fenceJson.length ≤ (c :: t2).length := by
            intro hle
            exact h2 (List.isPrefixOf_iff_prefix.mpr
              (prefix_of_append_of_le (List.isPrefixOf_iff_prefix.mp h) hle))
          have hn7 : (c :: t2).length ≤ fenceJson.length := by omega
          have htake : c :: t2 = fenceJson.take (c :: t2).length :=
            eq_take_of_append_eq_append (a := c :: t2) (b := fenceTicks) hu hn7
          have hlu := congrArg List.length hu
          have hfj : fenceJson.length = 7 := by decide
          have hft : fenceTicks.length = 3 := by decide
          rw [List.length_append] at hlu
          have hlu2 : (c :: (t2 ++ fenceTicks)).length = (t2 ++ fenceTicks).length + 1 :=
            List.length_cons c _
          rw [hlu2, List.length_append, hfj, hft] at hlu
          have hL : (c :: t2).length = 4 ∨ (c :: t2).length = 5 ∨ (c :: t2).length = 6 := by
            simp only [List.length_cons] at hn7 hlen2 ⊢
            rw [hfj] at hn7 hlen2
            omega
          show replaceAll fenceJson ((c :: t2) ++ fenceTicks)
            = replaceAll fenceJson (c :: t2) ++ fenceTicks
          rcases hL with hL | hL | hL <;> rw [hL] at htake <;> rw [htake] <;> decide
      · have h2 : ¬ fenceJson.isPrefixOf (c :: t2) = true := by
          intro hx
          exact h (List.isPrefixOf_iff_prefix.mpr
            ((List.isPrefixOf_iff_prefix.mp hx).trans (List.prefix_append _ _)))
        rw [replaceAll_cons_neg fenceJson c (t2 ++ fenceTicks) h,
          replaceAll_cons_neg fenceJson c t2 h2, List.cons_append]
        congr 1
        apply ih
        simp only [List.length_cons] at ht
        omega

/-- Removing ```` ```json ```` commutes with the appended closing fence. -/
theorem replaceAll_fenceJson_fence (t : List Char) :
    replaceAll fenceJson (t ++ fenceTicks) = replaceAll fenceJson t ++ fenceTicks :=
  replaceAll_fenceJson_fence_aux t.length t (Nat.le_refl _)

/-- Removing ```` ``` ```` absorbs an appended ```` ``` ````: the appended
fence is itself deleted, and the backticks left over at the end of `u` are
still left over. -/
theorem replaceAll_fence_absorb_aux :
    ∀ n u, u.length ≤ n →
      replaceAll fenceTicks (u ++ fenceTicks) = replaceAll fenceTicks u := by
  intro n
  induction n with
  | zero =>
    intro u hu
    have he : u = [] := List.eq_nil_of_length_eq_zero (Nat.le_zero.mp hu)
    subst he
    decide
  | succ n ih =>
    intro u hu
    cases u with
    | nil => decide
    | cons c u2 =>
      show replaceAll fenceTicks (c :: (u2 ++ fenceTicks)) = replaceAll fenceTicks (c :: u2)
      by_cases h : fenceTicks.isPrefixOf (c :: (u2 ++ fenceTicks)) = true
      · by_cases h2 : fenceTicks.isPrefixOf (c :: u2) = true
        · have hlen : fenceTicks.length ≤ (c :: u2).length :=
            (List.isPrefixOf_iff_prefix.mp h2).length_le
          rw [replaceAll_cons_pos fenceTicks (by decide) c (u2 ++ fenceTicks) h,
            replaceAll_cons_pos fenceTicks (by decide) c u2 h2]
          have hdrop : (c :: (u2 ++ fenceTicks)).drop fenceTicks.length
              = (c :: u2).drop fenceTicks.length ++ fenceTicks := by
            have e0 : (c :: (u2 ++ fenceTicks)) = (c :: u2) ++ fenceTicks := rfl
            rw [e0, List.drop_append_eq_append_drop, Nat.sub_eq_zero_of_le hlen,
              List.drop_zero]
          rw [hdrop]
          apply ih
          have hft : fenceTicks.length = 3 := by decide
          simp only [List.length_drop, List.length_cons, hft]
          simp only [List.length_cons] at hu
          omega
        · -- the head `c :: u2` is one or two leftover backticks
          obtain ⟨u3, hu3⟩ := List.isPrefixOf_iff_prefix.mp h
          have hlen2 : ¬ fenceTicks.length ≤ (c :: u2).length := by
            intro hle
            exact h2 (List.isPrefixOf_iff_prefix.mpr
              (prefix_of_append_of_le (List.isPrefixOf_iff_prefix.mp h) hle))
          have hn3 : (c :: u2).length ≤ fenceTicks.length := by omega
          have htake : c :: u2 = fenceTicks.take (c :: u2).length :=
            eq_take_of_append_eq_append (a := c :: u2) (b := fenceTicks) hu3 hn3
          have hft : fenceTicks.length = 3 := by decide
          have hL : (c :: u2).length = 1 ∨ (c :: u2).length = 2 := by
            simp only [List.length_cons] at hlen2 ⊢
            rw [hft] at hlen2
            omega
          show replaceAll fenceTicks ((c :: u2) ++ fenceTicks) = replaceAll fenceTicks (c :: u2)
          rcases hL with hL | hL <;> rw [hL] at htake <;> rw [htake] <;> decide
      · have h2 : ¬ fenceTicks.isPrefixOf (c :: u2) = true := by
          intro hx
          exact h (List.isPrefixOf_iff_prefix.mpr
            ((List.isPrefixOf_iff_prefix.mp hx).trans (List.prefix_append _ _)))
        rw [replaceAll_cons_neg fenceTicks c (u2 ++ fenceTicks) h,
          replaceAll_cons_neg fenceTicks c u2 h2]
        congr 1
        apply ih
        simp only [List.length_cons] at hu
        omega

/-- Removing ```` ``` ```` absorbs an appended closing fence. -/
theorem replaceAll_fence_absorb (u : List Char) :
    replaceAll fenceTicks (u ++ fenceTicks) = replaceAll fenceTicks u :=
  replaceAll_fence_absorb_aux u.length u (Nat.le_refl _)

/-- `dropWhile` swallows a prefix every character of which satisfies the
predicate. -/
theorem dropWhile_all_append {q : Char → Bool} {w : List Char}
    (hw : ∀ a ∈ w, q a = true) (s : List Char) :
    (w ++ s).dropWhile q = s.dropWhile q := by
  induction w with
  | nil => rfl
  | cons a w2 ih =>
    rw [List.cons_append, List.dropWhile_cons, if_pos (hw a (List.mem_cons_self a w2))]
    exact ih (fun b hb => hw b (List.mem_cons_of_mem a hb))

/-- Trimming ignores an all-whitespace prefix and suffix. -/
theorem trim_sandwich (v w1 w2 : List Char)
    (hw1 : ∀ a ∈ w1, isTrimWs a = true) (hw2 : ∀ a ∈ w2, isTrimWs a = true) :
    trimChars (w1 ++ v ++ w2) = trimChars v := by
  unfold trimChars
  rw [List.append_assoc, dropWhile_all_append hw1]
  by_cases hv : v.dropWhile isTrimWs = []
  · have hvw : ∀ a ∈ v, isTrimWs a = true := List.dropWhile_eq_nil_iff.mp hv
    rw [dropWhile_all_append hvw, List.dropWhile_eq_nil_iff.mpr hw2, hv]
  · have happ : (v ++ w2).dropWhile isTrimWs = v.dropWhile isTrimWs ++ w2 := by
      rw [List.dropWhile_append]
      simp [hv]
    rw [happ, List.reverse_append,
      dropWhile_all_append (fun a ha => hw2 a (List.mem_reverse.mp ha))]

theorem trimWs_ne_backtick {a : Char} (h : isTrimWs a = true) : a ≠ '`' := by
  intro he
  subst he
  simp [isTrimWs] at h

theorem trimWs_not_mem_fenceJson {a : Char} (h : isTrimWs a = true) : a ∉ fenceJson := by
  intro ha
  rw [fenceJson_eq] at ha
  fin_cases ha <;> simp [isTrimWs] at h

theorem trimWs_not_mem_fenceTicks {a : Char} (h : isTrimWs a = true) : a ∉ fenceTicks := by
  intro ha
  rw [fenceTicks_eq] at ha
  fin_cases ha <;> simp [isTrimWs] at h

/-- Whitespace passes through the ```` ```json ```` removal on the left. -/
theorem replaceAll_fenceJson_ws_left (w s : List Char) (hw : ∀ a ∈ w, isTrimWs a = true) :
    replaceAll fenceJson (w ++ s) = w ++ replaceAll fenceJson s :=
  replaceAll_append_left '`' ['`', '`', 'j', 's', 'o', 'n'] w s
    (fun a ha => trimWs_ne_backtick (hw a ha))

/-- Whitespace passes through the ```` ``` ```` removal on the left. -/
theorem replaceAll_fenceTicks_ws_left (w s : List Char) (hw : ∀ a ∈ w, isTrimWs a = true) :
    replaceAll fenceTicks (w ++ s) = w ++ replaceAll fenceTicks s :=
  replaceAll_append_left '`' ['`', '`'] w s
    (fun a ha => trimWs_ne_backtick (hw a ha))

/-- Whitespace passes through the ```` ```json ```` removal on the right. -/
theorem replaceAll_fenceJson_ws_right (w m : List Char) (hw : ∀ a ∈ w, isTrimWs a = true) :
    replaceAll fenceJson (m ++ w) = replaceAll fenceJson m ++ w :=
  replaceAll_append_right fenceJson (by decide) w
    (fun a ha => trimWs_not_mem_fenceJson (hw a ha)) m.length m (Nat.le_refl _)

/-- Whitespace passes through the ```` ``` ```` removal on the right. -/
theorem replaceAll_fenceTicks_ws_right (w m : List Char) (hw : ∀ a ∈ w, isTrimWs a = true) :
    replaceAll fenceTicks (m ++ w) = replaceAll fenceTicks m ++ w :=
  replaceAll_append_right fenceTicks (by decide) w
    (fun a ha => trimWs_not_mem_fenceTicks (hw a ha)) m.length m (Nat.le_refl _)

/-- The storyboard cleanup of a fenced text (with optional surrounding
whitespace) equals the cleanup of the bare text. -/
theorem cleanTextChars_unfence (t w1 w2 : List Char)
    (hw1 : ∀ a ∈ w1, isTrimWs a = true) (hw2 : ∀ a ∈ w2, isTrimWs a = true) :
    cleanTextChars (w1 ++ (fenceJson ++ (t ++ (fenceTicks ++ w2)))) = cleanTextChars t := by
  unfold cleanTextChars
  have s1 : replaceAll fenceJson (w1 ++ (fenceJson ++ (t ++ (fenceTicks ++ w2))))
      = w1 ++ ((replaceAll fenceJson t ++ fenceTicks) ++ w2) := by
    rw [replaceAll_fenceJson_ws_left _ _ hw1, replaceAll_prepend fenceJson (by decide),
      ← List.append_assoc, replaceAll_fenceJson_ws_right _ _ hw2,
      replaceAll_fenceJson_fence]
  rw [s1]
  have s2 : replaceAll fenceTicks (w1 ++ ((replaceAll fenceJson t ++ fenceTicks) ++ w2))
      = w1 ++ (replaceAll fenceTicks (replaceAll fenceJson t) ++ w2) := by
    rw [replaceAll_fenceTicks_ws_left _ _ hw1, replaceAll_fenceTicks_ws_right _ _ hw2,
      replaceAll_fence_absorb]
  rw [s2, ← List.append_assoc]
  exact trim_sandwich _ w1 w2 hw1 hw2

/-! ## Lemmas about the data-URI decomposition -/

/-- Splitting a comma-free string gives one group. -/
theorem splitCommaChars_no_comma (s : List Char) (h : ∀ a ∈ s, a ≠ ',') :
    splitCommaChars s = [s] := by
  induction s with
  | nil => rfl
  | cons c s2 ih =>
    have hc : ¬ c = ',' := h c (List.mem_cons_self c s2)
    simp [splitCommaChars, hc, ih (fun b hb => h b (List.mem_cons_of_mem c hb))]

/-- Splitting at the first comma: a comma-free prefix becomes the first
group. -/
theorem splitCommaChars_append (w s : List Char) (h : ∀ a ∈ w, a ≠ ',') :
    splitCommaChars (w ++ ',' :: s) = w :: splitCommaChars s := by
  induction w with
  | nil => simp [splitCommaChars]
  | cons c w2 ih =>
    have hc : ¬ c = ',' := h c (List.mem_cons_self c w2)
    rw [List.cons_append]
    simp [splitCommaChars, hc, ih (fun b hb => h b (List.mem_cons_of_mem c hb))]

/-- The lazy group stops at the first semicolon after the colon. -/
theorem takeUntilSemi_append (m r : List Char)
    (hm : ∀ a ∈ m, a ≠ ';' ∧ isLineTerm a = false) :
    takeUntilSemi (m ++ ';' :: r) = some m := by
  induction m with
  | nil => simp [takeUntilSemi]
  | cons a m2 ih =>
    have ha := hm a (List.mem_cons_self a m2)
    rw [List.cons_append]
    simp [takeUntilSemi, ha.1, ha.2, ih (fun b hb => hm b (List.mem_cons_of_mem a hb))]

/-- The mime regex applied to a well-formed `data:<mime>;...` header captures
exactly the mime type. -/
theorem mimeGroup_data_header (m r : List Char)
    (hm : ∀ a ∈ m, a ≠ ';' ∧ isLineTerm a = false) :
    mimeGroup ('d' :: 'a' :: 't' :: 'a' :: ':' :: (m ++ ';' :: r)) = some m := by
  simp [mimeGroup, takeUntilSemi_append m r hm]

/-- The decomposition `split(',')` + `match(/:(.*?);/)` recovers the mime
type and payload from a well-formed data-URI. -/
theorem parseDataUri_wellformed (m p : String) (hm : ∀ c ∈ m.toList, mimeCharOk c)
    (h0 : m ≠ "") (hp : ∀ c ∈ p.toList, c ≠ ',') :
    parseDataUri ("data:" ++ m ++ ";base64," ++ p) = (m, some p) := by
  have tl : ∀ a b : String, (a ++ b).toList = a.toList ++ b.toList := fun a b =>
    String.data_append a b
  have e : ("data:" ++ m ++ ";base64," ++ p).toList
      = ('d' :: 'a' :: 't' :: 'a' :: ':' :: (m.toList ++ [';', 'b', 'a', 's', 'e', '6', '4']))
        ++ (',' :: p.toList) := by
    simp only [tl]
    rw [show "data:".toList = ['d', 'a', 't', 'a', ':'] from rfl,
      show ";base64,".toList = [';', 'b', 'a', 's', 'e', '6', '4', ','] from rfl]
    simp [List.append_assoc]
  have hw : ∀ a ∈ ('d' :: 'a' :: 't' :: 'a' :: ':'
      :: (m.toList ++ [';', 'b', 'a', 's', 'e', '6', '4'])), a ≠ ',' := by
    intro a ha
    simp only [List.mem_cons, List.mem_append, List.not_mem_nil, or_false] at ha
    rcases ha with rfl | rfl | rfl | rfl | rfl | hmem | rfl | rfl | rfl | rfl | rfl | rfl | rfl
    · decide
    · decide
    · decide
    · decide
    · decide
    · exact (hm a hmem).2.1
    · decide
    · decide
    · decide
    · decide
    · decide
    · decide
    · decide
  unfold parseDataUri
  rw [e, splitCommaChars_append _ _ hw, splitCommaChars_no_comma p.toList hp]
  show (jsOrElse (Option.map List.asString
      (mimeGroup ('d' :: 'a' :: 't' :: 'a' :: ':'
        :: (m.toList ++ [';', 'b', 'a', 's', 'e', '6', '4'])))) "image/png",
    Option.map List.asString (some p.toList)) = (m, some p)
  have hg : ∀ a ∈ m.toList, a ≠ ';' ∧ isLineTerm a = false := fun a ha =>
    ⟨(hm a ha).1, (hm a ha).2.2⟩
  rw [mimeGroup_data_header m.toList ['b', 'a', 's', 'e', '6', '4'] hg]
  show (jsOrElse (some m) "image/png", some p) = (m, some p)
  simp [jsOrElse, h0]

/-! ## Lemmas about credential resolution and call plumbing -/

/-- The resolved credential is empty exactly when the caller credential is
falsy and the environment fallback is empty. -/
theorem jsOrElse_eq_empty_iff (k : Option String) (e : String) :
    jsOrElse k e = "" ↔ (jsTruthyOptStr k = false ∧ e = "") := by
  cases k with
  | none => simp [jsOrElse, jsTruthyOptStr]
  | some s =>
    by_cases hs : s = ""
    · subst hs
      simp [jsOrElse, jsTruthyOptStr]
    · simp [jsOrElse, jsTruthyOptStr, hs]

/-- A present, non-empty caller credential wins over any fallback. -/
theorem jsOrElse_some (s e : String) (h : s ≠ "") : jsOrElse (some s) e = s := by
  simp [jsOrElse, h]

/-- A falsy caller credential falls back to the environment value. -/
theorem jsOrElse_falsy (k : Option String) (e : String) (h : jsTruthyOptStr k = false) :
    jsOrElse k e = e := by
  cases k with
  | none => rfl
  | some s =>
    by_cases hs : s = ""
    · subst hs; rfl
    · simp [jsTruthyOptStr, hs] at h

theorem getClient_ok (e : String) (k : Option String) (h : ¬ jsOrElse k e = "") :
    getClient e k = .ok { apiKey := jsOrElse k e } := by
  unfold getClient
  simp [h]

theorem getClient_missing (e : String) (k : Option String) (h : jsOrElse k e = "") :
    getClient e k = .error .missingKey := by
  unfold getClient
  simp [h]

theorem generateSpeech_missing (e t s : String) (v : VoiceName) (k : Option String)
    (r : RemoteModel) (h : jsOrElse k e = "") :
    generateSpeech e t v s k r = (.error .missingKey, []) := by
  unfold generateSpeech
  rw [getClient_missing e k h]

theorem generateSpeech_call (e t s : String) (v : VoiceName) (k : Option String)
    (r : RemoteModel) (h : ¬ jsOrElse k e = "") :
    generateSpeech e t v s k r =
      ((match r (speechRequest t v s) with
        | .error err => .error (.remoteError err)
        | .ok response => .ok (speechExtract response)),
       [{ apiKey := jsOrElse k e, request := speechRequest t v s }]) := by
  unfold generateSpeech
  rw [getClient_ok e k h]
  cases r (speechRequest t v s) <;> rfl

theorem generateStoryboard_missing (e f : String) (k : Option String)
    (r : RemoteModel) (h : jsOrElse k e = "") :
    generateStoryboard e f k r = (.error .missingKey, []) := by
  unfold generateStoryboard
  rw [getClient_missing e k h]

theorem generateStoryboard_call (e f : String) (k : Option String)
    (r : RemoteModel) (h : ¬ jsOrElse k e = "") :
    generateStoryboard e f k r =
      ((match r (storyboardRequest f) with
        | .error err => .error (.remoteError err)
        | .ok response => storyboardDecode response),
       [{ apiKey := jsOrElse k e, request := storyboardRequest f }]) := by
  unfold generateStoryboard
  rw [getClient_ok e k h]
  cases r (storyboardRequest f) <;> rfl

theorem generateSceneImage_missing (e pr : String) (rf : Option String) (k : Option String)
    (r : RemoteModel) (h : jsOrElse k e = "") :
    generateSceneImage e pr rf k r = (.error .missingKey, []) := by
  unfold generateSceneImage
  rw [getClient_missing e k h]

theorem generateSceneImage_call (e pr : String) (rf : Option String) (k : Option String)
    (r : RemoteModel) (h : ¬ jsOrElse k e = "") :
    generateSceneImage e pr rf k r =
      ((match r (sceneImageRequest pr rf) with
        | .error err => .error (.remoteError err)
        | .ok response => .ok (firstImagePart (responseParts response))),
       [{ apiKey := jsOrElse k e, request := sceneImageRequest pr rf }]) := by
  unfold generateSceneImage
  rw [getClient_ok e k h]
  cases r (sceneImageRequest pr rf) <;> rfl

theorem checkImageForCharacter_guard (e i : String) (k : Option String)
    (r : RemoteModel) (h : jsTruthyOptStr k = false ∧ e = "") :
    checkImageForCharacter e i k r = (.ok true, []) := by
  unfold checkImageForCharacter
  rw [if_pos h]

theorem checkImageForCharacter_call (e i : String) (k : Option String)
    (r : RemoteModel) (h : ¬ jsOrElse k e = "") :
    checkImageForCharacter e i k r =
      ((match r (checkRequest i) with
        | .error _ => .ok true
        | .ok response => .ok (checkDecode response)),
       [{ apiKey := jsOrElse k e, request := checkRequest i }]) := by
  unfold checkImageForCharacter
  rw [if_neg (fun hg => h ((jsOrElse_eq_empty_iff k e).mpr hg)), getClient_ok e k h]
  cases r (checkRequest i) <;> rfl

/-! ## Refinement of the response extractions against the spec wording -/

/-- The scene-image loop is the first part carrying inline binary data,
re-wrapped. -/
theorem firstImagePart_eq_find (ps : List ContentPart) :
    firstImagePart ps = (ps.find? partHasImageData).map rewrapPart := by
  induction ps with
  | nil => rfl
  | cons part rest ih =>
    rw [List.find?_cons]
    cases hid : part.inlineData with
    | none =>
      rw [show partHasImageData part = false by simp [partHasImageData, hid]]
      simpa [firstImagePart, hid] using ih
    | some d =>
      cases hd : d.data with
      | none =>
        rw [show partHasImageData part = false by simp [partHasImageData, hid, hd]]
        simpa [firstImagePart, hid, hd] using ih
      | some s =>
        by_cases hs : s = ""
        · subst hs
          rw [show partHasImageData part = false by simp [partHasImageData, hid, hd]]
          simpa [firstImagePart, hid, hd] using ih
        · rw [show partHasImageData part = true by simp [partHasImageData, hid, hd, hs]]
          simp [firstImagePart, hid, hd, hs, rewrapPart, Option.bind]

/-- The speech extraction is exactly the spec's description. -/
theorem speechExtract_eq_spec (r : GenResponse) :
    speechExtract r = specSpeechExtract r := by
  unfold speechExtract specSpeechExtract
  cases hc : r.candidates.bind List.head? with
  | none => rfl
  | some candidate =>
    dsimp only [Option.bind]
    cases hcc : candidate.content with
    | none => rfl
    | some content =>
      dsimp only [Option.bind]
      cases hpp : content.parts with
      | none => rfl
      | some parts =>
        dsimp only [Option.bind]
        cases parts with
        | nil => rfl
        | cons part rest =>
          dsimp only [List.head?]
          cases part.inlineData with
          | none => rfl
          | some d =>
            dsimp only []
            cases d.data <;> rfl

/-! ## The claims -/

/-- C1: credential resolution is shared by all operations: a present,
non-empty caller credential is used in preference to the process-wide
fallback; an absent or empty caller credential falls back to the environment
value; every remote call any of the four operations issues is made with the
resolved credential; and when both are absent/empty, the speech-synthesis,
storyboard-decomposition and scene-image-generation operations fail with the
missing-credential error. -/
theorem claim_C1_credential_resolution (e t s f pr i : String) (v : VoiceName)
    (rf k : Option String) (r : RemoteModel) :
    (∀ c, k = some c → c ≠ "" → jsOrElse k e = c)
    ∧ (jsTruthyOptStr k = false → jsOrElse k e = e)
    ∧ (∀ rec ∈ (generateSpeech e t v s k r).2 ++ (generateStoryboard e f k r).2
        ++ (generateSceneImage e pr rf k r).2 ++ (checkImageForCharacter e i k r).2,
        rec.apiKey = jsOrElse k e)
    ∧ (jsTruthyOptStr k = false → e = "" →
        (generateSpeech e t v s k r).1 = .error .missingKey
        ∧ (generateStoryboard e f k r).1 = .error .missingKey
        ∧ (generateSceneImage e pr rf k r).1 = .error .missingKey) := by
  refine ⟨?_, ?_, ?_, ?_⟩
  · intro c hk hc
    subst hk
    exact jsOrElse_some c e hc
  · intro h
    exact jsOrElse_falsy k e h
  · intro rec hrec
    by_cases h : jsOrElse k e = ""
    · have hg := (jsOrElse_eq_empty_iff k e).mp h
      rw [generateSpeech_missing e t s v k r h, generateStoryboard_missing e f k r h,
        generateSceneImage_missing e pr rf k r h,
        checkImageForCharacter_guard e i k r hg] at hrec
      simp at hrec
    · rw [generateSpeech_call e t s v k r h, generateStoryboard_call e f k r h,
        generateSceneImage_call e pr rf k r h,
        checkImageForCharacter_call e i k r h] at hrec
      simp only [List.mem_append, List.mem_singleton] at hrec
      rcases hrec with ((hrec | hrec) | hrec) | hrec <;> rw [hrec]
  · intro h1 h2
    have h : jsOrElse k e = "" := (jsOrElse_eq_empty_iff k e).mpr ⟨h1, h2⟩
    exact ⟨by rw [generateSpeech_missing e t s v k r h],
      by rw [generateStoryboard_missing e f k r h],
      by rw [generateSceneImage_missing e pr rf k r h]⟩

/-- C2: for every input image and every remote behaviour, the character
check called with no caller credential and no environment fallback returns
`true` immediately and issues no remote call at all. -/
theorem claim_C2_check_fail_open_missing_credential (i : String) (r : RemoteModel) :
    checkImageForCharacter "" i none r = (.ok true, []) :=
  checkImageForCharacter_guard "" i none r ⟨rfl, rfl⟩

/-- C3: the character check never propagates an error: its result is always
`.ok` of a boolean; a remote error is converted to `true`; an absent or empty
response text yields `true`; and an unparseable response text yields `true`. -/
theorem claim_C3_check_never_propagates (e i : String) (k : Option String)
    (r : RemoteModel) :
    (∃ b, (checkImageForCharacter e i k r).1 = .ok b)
    ∧ (∀ err, r (checkRequest i) = .error err →
        (checkImageForCharacter e i k r).1 = .ok true)
    ∧ (∀ resp, r (checkRequest i) = .ok resp → jsTruthyOptStr resp.text = false →
        (checkImageForCharacter e i k r).1 = .ok true)
    ∧ (∀ resp tx, r (checkRequest i) = .ok resp → resp.text = some tx → tx ≠ "" →
        jsonParse tx = none → (checkImageForCharacter e i k r).1 = .ok true) := by
  by_cases h : jsOrElse k e = ""
  · have hg := (jsOrElse_eq_empty_iff k e).mp h
    rw [checkImageForCharacter_guard e i k r hg]
    exact ⟨⟨true, rfl⟩, fun _ _ => rfl, fun _ _ _ => rfl, fun _ _ _ _ _ _ => rfl⟩
  · rw [checkImageForCharacter_call e i k r h]
    refine ⟨?_, ?_, ?_, ?_⟩
    · cases hr : r (checkRequest i) with
      | error err => exact ⟨true, rfl⟩
      | ok resp => exact ⟨checkDecode resp, rfl⟩
    · intro err herr
      rw [herr]
    · intro resp hresp htext
      rw [hresp]
      show Except.ok (checkDecode resp) = Except.ok true
      cases ht : resp.text with
      | none => simp [checkDecode, ht]
      | some tx =>
        rw [ht] at htext
        by_cases htx : tx = ""
        · subst htx
          simp [checkDecode, ht]
        · simp [jsTruthyOptStr, htx] at htext
    · intro resp tx hresp htx htne hparse
      rw [hresp]
      show Except.ok (checkDecode resp) = Except.ok true
      simp [checkDecode, htx, htne, hparse]

/-- C4: storyboard response handling: an absent response text is defaulted
to `"[]"`, so the operation returns the empty sequence; a cleaned text that
is not valid JSON makes the parse failure propagate as an error; and a
remote error propagates unchanged. -/
theorem claim_C4_storyboard_response_handling (e f : String) (k : Option String)
    (r : RemoteModel) (h : ¬ jsOrElse k e = "") :
    (∀ resp, r (storyboardRequest f) = .ok resp → resp.text = none →
        (generateStoryboard e f k r).1 = .ok (.arr []))
    ∧ (∀ resp, r (storyboardRequest f) = .ok resp →
        jsonParse (cleanText (jsOrElse resp.text "[]")) = none →
        (generateStoryboard e f k r).1 = .error .parseError)
    ∧ (∀ err, r (storyboardRequest f) = .error err →
        (generateStoryboard e f k r).1 = .error (.remoteError err)) := by
  rw [generateStoryboard_call e f k r h]
  refine ⟨?_, ?_, ?_⟩
  · intro resp hr ht
    rw [hr]
    show storyboardDecode resp = .ok (.arr [])
    unfold storyboardDecode
    rw [ht]
    rfl
  · intro resp hr hp
    rw [hr]
    show storyboardDecode resp = .error .parseError
    unfold storyboardDecode
    rw [hp]
  · intro err hr
    rw [hr]

/-- Witness for C4 at a concrete input: an `ok` response with no text yields
the empty storyboard. -/
theorem claim_C4_witness :
    (generateStoryboard "k" "story" none
      (fun _ => .ok { candidates := none, text := none })).1 = .ok (.arr []) :=
  (claim_C4_storyboard_response_handling "k" "story" none
    (fun _ => .ok { candidates := none, text := none }) (by decide)).1
    { candidates := none, text := none } rfl rfl

/-- C5 (amended: for every NON-EMPTY response text `t`): storyboard
decomposition of `t` wrapped in code fences (```` ```json ```` before,
```` ``` ```` after, with optional surrounding whitespace) produces exactly
the same parsed result as decomposition of `t` without the fences.  The
original claim fails at `t = ""`, because the bare empty text is falsy and
is defaulted to `"[]"` while the fenced text is truthy and cleans to the
unparseable `""`. -/
theorem claim_C5_fenced_equals_bare (t w1 w2 : String)
    (c1 c2 : Option (List ResponseCandidate)) (ht : t ≠ "")
    (hw1 : ∀ a ∈ w1.toList, isTrimWs a = true)
    (hw2 : ∀ a ∈ w2.toList, isTrimWs a = true) :
    storyboardDecode { candidates := c1, text := some (w1 ++ "```json" ++ t ++ "```" ++ w2) }
      = storyboardDecode { candidates := c2, text := some t } := by
  have hwne : w1 ++ "```json" ++ t ++ "```" ++ w2 ≠ "" := by
    intro hcontra
    have hl := congrArg String.length hcontra
    simp only [String.length_append,
      show ("```json" : String).length = 7 from rfl,
      show ("```" : String).length = 3 from rfl,
      show ("" : String).length = 0 from rfl] at hl
    omega
  unfold storyboardDecode
  rw [show jsOrElse (some (w1 ++ "```json" ++ t ++ "```" ++ w2)) "[]"
      = w1 ++ "```json" ++ t ++ "```" ++ w2 from jsOrElse_some _ _ hwne,
    show jsOrElse (some t) "[]" = t from jsOrElse_some _ _ ht]
  have hc : cleanText (w1 ++ "```json" ++ t ++ "```" ++ w2) = cleanText t := by
    unfold cleanText
    congr 1
    have tl : ∀ a b : String, (a ++ b).toList = a.toList ++ b.toList := fun a b =>
      String.data_append a b
    have e : (w1 ++ "```json" ++ t ++ "```" ++ w2).toList
        = w1.toList ++ (fenceJson ++ (t.toList ++ (fenceTicks ++ w2.toList))) := by
      simp only [tl, List.append_assoc]
      rfl
    rw [e]
    exact cleanTextChars_unfence t.toList w1.toList w2.toList hw1 hw2
  rw [hc]

/-- Counterexample to C5 as stated: at the empty response text, the fenced
form fails to parse while the bare form returns the empty storyboard. -/
theorem claim_C5_counterexample :
    storyboardDecode { candidates := none, text := some "```json```" }
      ≠ storyboardDecode { candidates := none, text := some "" } := by
  intro hcontra
  rw [show storyboardDecode { candidates := none, text := some "```json```" }
      = .error .parseError from rfl,
    show storyboardDecode { candidates := none, text := some "" }
      = .ok (.arr []) from rfl] at hcontra
  exact Except.noConfusion hcontra

/-- Witness for the amended C5 at a concrete input: `"[]"` wrapped in fences
with leading whitespace decodes like bare `"[]"`. -/
theorem claim_C5_witness :
    storyboardDecode
        { candidates := none, text := some (" " ++ "```json" ++ "[]" ++ "```" ++ "") }
      = storyboardDecode { candidates := none, text := some "[]" } :=
  claim_C5_fenced_equals_bare "[]" " " "" none none (by decide) (by decide) (by decide)

theorem base64Char_ne_comma {c : Char} (h : isBase64Char c) : c ≠ ',' := by
  intro he
  subst he
  exact absurd h (by decide)

/-- C6: round-trip of the image encoding: for every MIME type `m` and base64
payload `p`, the data-URI `data:m;base64,p` built by the scene-image encode
step decomposes through the request-side header-parse/comma-split into
exactly the mime type `m` and payload `p` again. -/
theorem claim_C6_dataUri_roundtrip (m p pr : String)
    (hm : ∀ c ∈ m.toList, mimeCharOk c) (h0 : m ≠ "")
    (hp : ∀ c ∈ p.toList, isBase64Char c) :
    parseDataUri (mkImageDataUri (some m) p) = (m, some p)
    ∧ sceneImageParts pr (some (mkImageDataUri (some m) p))
      = [{ text := none, inlineData := some { mimeType := some m, data := some p } },
         { text := some (sceneStyleInstruction pr), inlineData := none }] := by
  have hpc : ∀ c ∈ p.toList, c ≠ ',' := fun c hc => base64Char_ne_comma (hp c hc)
  have he : mkImageDataUri (some m) p = "data:" ++ m ++ ";base64," ++ p := by
    unfold mkImageDataUri
    rw [jsOrElse_some m "image/png" h0]
  have hne : mkImageDataUri (some m) p ≠ "" := by
    rw [he]
    intro hcontra
    have hl := congrArg String.length hcontra
    simp only [String.length_append,
      show ("data:" : String).length = 5 from rfl,
      show (";base64," : String).length = 8 from rfl,
      show ("" : String).length = 0 from rfl] at hl
    omega
  constructor
  · rw [he]
    exact parseDataUri_wellformed m p hm h0 hpc
  · unfold sceneImageParts
    rw [if_pos (show jsTruthyOptStr (some (mkImageDataUri (some m) p)) = true by
      simp [jsTruthyOptStr, hne]),
      jsOrElse_some _ "" hne, he, parseDataUri_wellformed m p hm h0 hpc]

/-- Witness for C6 at a concrete input: `data:image/png;base64,QUJD` round
trips. -/
theorem claim_C6_witness :
    parseDataUri (mkImageDataUri (some "image/png") "QUJD") = ("image/png", some "QUJD")
    ∧ sceneImageParts "a fox" (some (mkImageDataUri (some "image/png") "QUJD"))
      = [{ text := none,
           inlineData := some { mimeType := some "image/png", data := some "QUJD" } },
         { text := some (sceneStyleInstruction "a fox"), inlineData := none }] :=
  claim_C6_dataUri_roundtrip "image/png" "QUJD" "a fox" (by decide) (by decide) (by decide)

/-- C7: scene-image response extraction: on a successful remote response the
operation returns the first content part of the first candidate carrying
inline binary data, re-wrapped as a data-URI with `image/png` as the default
mime type; when no part carries image data it returns `.ok none`, not an
error. -/
theorem claim_C7_scene_response_extraction (e pr : String) (rf k : Option String)
    (r : RemoteModel) (resp : GenResponse) (h : ¬ jsOrElse k e = "")
    (hr : r (sceneImageRequest pr rf) = .ok resp) :
    (generateSceneImage e pr rf k r).1
      = .ok (((responseParts resp).find? partHasImageData).map rewrapPart)
    ∧ ((∀ part ∈ responseParts resp, partHasImageData part = false) →
        (generateSceneImage e pr rf k r).1 = .ok none) := by
  have h1 : (generateSceneImage e pr rf k r).1
      = .ok (firstImagePart (responseParts resp)) := by
    rw [generateSceneImage_call e pr rf k r h, hr]
  constructor
  · rw [h1, firstImagePart_eq_find]
  · intro hall
    rw [h1, firstImagePart_eq_find, List.find?_eq_none.mpr
      (fun part hpart => by rw [hall part hpart]; exact Bool.false_ne_true)]
    rfl

/-- Witness for C7 at a concrete input: a response whose second part carries
the image data. -/
theorem claim_C7_witness :
    (generateSceneImage "k" "a fox" none none (fun _ => .ok sampleSceneResponse)).1
      = .ok (((responseParts sampleSceneResponse).find? partHasImageData).map rewrapPart) :=
  (claim_C7_scene_response_extraction "k" "a fox" none none
    (fun _ => .ok sampleSceneResponse) sampleSceneResponse (by decide) rfl).1

/-- The request-side decomposition of a general one-comma string: the part
before the first comma is the header the mime type is parsed from, the part
between the first and second comma (all of the rest, when the payload holds
no comma) is the payload. -/
theorem parseDataUri_split (hd p : String) (h1 : ∀ a ∈ hd.toList, a ≠ ',')
    (h2 : ∀ a ∈ p.toList, a ≠ ',') :
    parseDataUri (hd ++ "," ++ p)
      = (jsOrElse ((mimeGroup hd.toList).map List.asString) "image/png", some p) := by
  unfold parseDataUri
  have tl : ∀ a b : String, (a ++ b).toList = a.toList ++ b.toList := fun a b =>
    String.data_append a b
  have e : (hd ++ "," ++ p).toList = hd.toList ++ (',' :: p.toList) := by
    simp only [tl, List.append_assoc]
    rfl
  rw [e, splitCommaChars_append _ _ h1, splitCommaChars_no_comma _ h2]
  show (jsOrElse ((mimeGroup hd.toList).map List.asString) "image/png",
    some (p.toList.asString)) = _
  rfl

/-- C8: scene-image request shaping: with a reference image of the form
`header,payload`, the request's parts are the inline binary (mime type from
the header via the regex, defaulting to `image/png` when the header does not
match, payload from the comma split) followed by the style-transfer
instruction that incorporates the prompt; with no reference, the request is
the prompt as a single plain-text part with no inline binary part; and the
operation's request carries exactly these parts plus the 9:16 aspect
ratio. -/
theorem claim_C8_scene_request_shaping (pr : String) :
    (∀ hd p, (∀ a ∈ hd.toList, a ≠ ',') → (∀ a ∈ p.toList, a ≠ ',') →
      sceneImageParts pr (some (hd ++ "," ++ p))
        = [{ text := none,
             inlineData := some
               { mimeType := some (jsOrElse ((mimeGroup hd.toList).map List.asString)
                   "image/png"),
                 data := some p } },
           { text := some (sceneStyleInstruction pr), inlineData := none }])
    ∧ (∀ hd p, (∀ a ∈ hd.toList, a ≠ ',') → (∀ a ∈ p.toList, a ≠ ',') →
      mimeGroup hd.toList = none →
      sceneImageParts pr (some (hd ++ "," ++ p))
        = [{ text := none,
             inlineData := some { mimeType := some "image/png", data := some p } },
           { text := some (sceneStyleInstruction pr), inlineData := none }])
    ∧ sceneImageParts pr none = [{ text := some pr, inlineData := none }]
    ∧ (∀ part ∈ sceneImageParts pr none, part.inlineData = none)
    ∧ (∃ a, sceneStyleInstruction pr = a ++ pr)
    ∧ (∀ rf, (sceneImageRequest pr rf).contents = .single (sceneImageParts pr rf)
        ∧ (sceneImageRequest pr rf).config.aspectRatio = some "9:16") := by
  have hmain : ∀ hd p, (∀ a ∈ hd.toList, a ≠ ',') → (∀ a ∈ p.toList, a ≠ ',') →
      sceneImageParts pr (some (hd ++ "," ++ p))
        = [{ text := none,
             inlineData := some
               { mimeType := some (jsOrElse ((mimeGroup hd.toList).map List.asString)
                   "image/png"),
                 data := some p } },
           { text := some (sceneStyleInstruction pr), inlineData := none }] := by
    intro hd p h1 h2
    have hne : hd ++ "," ++ p ≠ "" := by
      intro hcontra
      have hl := congrArg String.length hcontra
      simp only [String.length_append,
        show ("," : String).length = 1 from rfl,
        show ("" : String).length = 0 from rfl] at hl
      omega
    unfold sceneImageParts
    rw [if_pos (show jsTruthyOptStr (some (hd ++ "," ++ p)) = true by
        simp [jsTruthyOptStr, hne]),
      jsOrElse_some _ "" hne, parseDataUri_split hd p h1 h2]
  refine ⟨hmain, ?_, rfl, ?_, ⟨_, rfl⟩, ?_⟩
  · intro hd p h1 h2 hnone
    rw [hmain hd p h1 h2, hnone]
    rfl
  · intro part hpart
    have hp : sceneImageParts pr none = [{ text := some pr, inlineData := none }] := rfl
    rw [hp] at hpart
    simp only [List.mem_singleton] at hpart
    rw [hpart]
  · intro rf
    exact ⟨rfl, rfl⟩

/-- C9: speech-synthesis response extraction: a remote error propagates
unchanged, and a successful response yields exactly the spec's extraction —
the first candidate's first content part's inline payload when present and
truthy, else `.ok none` as a valid success outcome. -/
theorem claim_C9_speech_response_extraction (e t s : String) (v : VoiceName)
    (k : Option String) (r : RemoteModel) (h : ¬ jsOrElse k e = "") :
    (∀ err, r (speechRequest t v s) = .error err →
        (generateSpeech e t v s k r).1 = .error (.remoteError err))
    ∧ (∀ resp, r (speechRequest t v s) = .ok resp →
        (generateSpeech e t v s k r).1 = .ok (specSpeechExtract resp)) := by
  rw [generateSpeech_call e t s v k r h]
  constructor
  · intro err herr
    rw [herr]
  · intro resp hresp
    rw [hresp]
    show Except.ok (speechExtract resp) = Except.ok (specSpeechExtract resp)
    rw [speechExtract_eq_spec]

/-- Witness for C9 at a concrete input: a response with inline audio in the
first part of the first candidate. -/
theorem claim_C9_witness :
    (generateSpeech "k" "hello" "Zephyr" "calm" none
        (fun _ => .ok sampleAudioResponse)).1 = .ok (specSpeechExtract sampleAudioResponse) :=
  (claim_C9_speech_response_extraction "k" "hello" "Zephyr" "calm" none
    (fun _ => .ok sampleAudioResponse) (by decide)).2 sampleAudioResponse rfl

/-- C10: the character-check result is the JavaScript truthiness coercion of
the parsed JSON's `hasCharacter` field, not a validated boolean: a missing
field or a falsy field value (`false`, `0`, `null`, `""`) yields `false`,
while any truthy non-boolean value (for example the string `"false"` or the
number `1`) yields `true`. -/
theorem claim_C10_truthiness_coercion (e i tx : String) (k : Option String)
    (r : RemoteModel) (resp : GenResponse) (fs : List (String × JSValue))
    (h : ¬ jsOrElse k e = "") (hr : r (checkRequest i) = .ok resp)
    (htx : resp.text = some tx) (htne : tx ≠ "")
    (hjson : jsonParse tx = some (.obj fs)) :
    (lookupFieldLast fs "hasCharacter" = none →
        (checkImageForCharacter e i k r).1 = .ok false)
    ∧ (∀ w, lookupFieldLast fs "hasCharacter" = some w →
        (checkImageForCharacter e i k r).1 = .ok (jsTruthy w))
    ∧ (∀ w, lookupFieldLast fs "hasCharacter" = some w →
        ((w = .bool false ∨ w = .num 0 0 ∨ w = .null ∨ w = .str "" →
          (checkImageForCharacter e i k r).1 = .ok false)
        ∧ (w = .str "false" ∨ w = .num 1 0 →
          (checkImageForCharacter e i k r).1 = .ok true))) := by
  have hd : (checkImageForCharacter e i k r).1 = .ok (checkDecode resp) := by
    rw [checkImageForCharacter_call e i k r h, hr]
  have hdec : ∀ w, lookupFieldLast fs "hasCharacter" = some w →
      checkDecode resp = jsTruthy w := by
    intro w hl
    simp [checkDecode, htx, htne, hjson, jsGetField, hl]
  have hdecn : lookupFieldLast fs "hasCharacter" = none → checkDecode resp = false := by
    intro hl
    simp [checkDecode, htx, htne, hjson, jsGetField, hl]
  refine ⟨?_, ?_, ?_⟩
  · intro hl
    rw [hd, hdecn hl]
  · intro w hl
    rw [hd, hdec w hl]
  · intro w hl
    constructor
    · rintro (rfl | rfl | rfl | rfl) <;> rw [hd, hdec _ hl] <;> rfl
    · rintro (rfl | rfl) <;> rw [hd, hdec _ hl] <;> rfl

/-- Witness for C10 at a concrete input: a parsed `hasCharacter: true`
response yields the truthiness of `true`. -/
theorem claim_C10_witness :
    (checkImageForCharacter "k" "img" none
        (fun _ => .ok { candidates := none, text := some "\x7b\"hasCharacter\": true\x7d" })).1
      = .ok (jsTruthy (.bool true)) :=
  (claim_C10_truthiness_coercion "k" "img" "\x7b\"hasCharacter\": true\x7d" none
    (fun _ => .ok { candidates := none, text := some "\x7b\"hasCharacter\": true\x7d" })
    { candidates := none, text := some "\x7b\"hasCharacter\": true\x7d" }
    [("hasCharacter", .bool true)]
    (by decide) rfl rfl (by decide) rfl).2.1 (.bool true) rfl

end StoryVoice
